import Mathlib

/-!
Verification development for the api-test-machine load-testing engine.

Shallow embedding of the Python sources under src/engine/ into Lean:
machine floats become rationals, dictionaries become association lists that
preserve insertion order (as Python dicts do), and the asynchronous pieces
are modelled by explicit state passing: the rate-limiter loop takes the list
of observed wall-clock gaps, the executor's per-task completion handling is
folded over the list of task outcomes in completion order, and clock reads
are explicit parameters.
-/

/-! ## Rate limiter (src/engine/rate_limiter.py, TokenBucketRateLimiter) -/

/-- State of a token bucket.  Mirrors TokenBucketRateLimiter.__init__:
rate is tokens/second, burst the capacity, tokens the current level.
The last_update clock is abstracted: elapsed times are passed explicitly. -/
structure TokenBucket where
  rate : ℚ
  burst : ℤ
  tokens : ℚ
  deriving Repr

/-- TokenBucketRateLimiter(rate) with the default burst: Python int(rate)
truncates toward zero, which equals the floor for the positive rates the
spec allows, and the bucket starts full (tokens = burst). -/
def mkTokenBucket (rate : ℚ) : TokenBucket :=
  { rate := rate, burst := ⌊rate⌋, tokens := ((⌊rate⌋ : ℤ) : ℚ) }

/-- The acquire loop of TokenBucketRateLimiter.acquire.  Each entry of
elapsed is the wall-clock gap observed at the top of one loop iteration
(the sleep plus scheduling delays).  On each iteration the bucket refills
to min(burst, tokens + elapsed*rate); if at least one token is available it
is consumed and the call returns the remaining level, otherwise the loop
sleeps and retries.  Returns none when the modelled iterations are
exhausted without the call ever returning. -/
def acquireLoop (rate burstQ : ℚ) : List ℚ → ℚ → Option ℚ
  | [], _ => none
  | e :: es, tokens =>
    let t := min burstQ (tokens + e * rate)
    if 1 ≤ t then some (t - 1) else acquireLoop rate burstQ es t

/-- One acquire call on a freshly constructed TokenBucketRateLimiter(rate). -/
def acquireFromFresh (rate : ℚ) (elapsed : List ℚ) : Option ℚ :=
  let b := mkTokenBucket rate
  acquireLoop b.rate ((b.burst : ℤ) : ℚ) elapsed b.tokens

/-! ## Data model (src/engine/models.py) -/

/-- RequestResult, restricted to the fields the metrics collector, the
sampler and the executor's finalization read.  The captured request and
response detail fields do not affect any claim and are omitted. -/
structure RequestResult where
  request_number : ℕ
  status_code : Option ℕ := none
  latency_ms : ℚ := 0
  error : Option String := none
  response_size_bytes : Option ℕ := none
  endpoint_name : Option String := none
  deriving DecidableEq, Repr

/-- RunStatus. -/
inductive RunStatus where
  | pending
  | running
  | completed
  | cancelled
  | failed
  deriving DecidableEq, Repr

/-- Thresholds (engine/models.py); unset fields impose no constraint. -/
structure Thresholds where
  max_latency_p50_ms : Option ℚ := none
  max_latency_p95_ms : Option ℚ := none
  max_latency_p99_ms : Option ℚ := none
  max_error_rate : Option ℚ := none
  min_throughput_rps : Option ℚ := none
  deriving Repr

/-- Metrics (engine/models.py). -/
structure Metrics where
  total_requests : ℕ := 0
  successful_requests : ℕ := 0
  failed_requests : ℕ := 0
  latency_min_ms : Option ℚ := none
  latency_max_ms : Option ℚ := none
  latency_mean_ms : Option ℚ := none
  latency_p50_ms : Option ℚ := none
  latency_p90_ms : Option ℚ := none
  latency_p95_ms : Option ℚ := none
  latency_p99_ms : Option ℚ := none
  requests_per_second : Option ℚ := none
  duration_seconds : Option ℚ := none
  error_rate : Option ℚ := none
  errors_by_type : List (String × ℕ) := []
  status_code_counts : List (ℕ × ℕ) := []
  total_bytes_received : ℕ := 0
  deriving Repr

/-! ## Insertion-ordered counting dictionaries (Python dict histograms) -/

/-- Python's counts[k] = counts.get(k, 0) + 1 on an insertion-ordered dict:
increment in place when the key exists, else append with count 1. -/
def bumpCount {α : Type} [DecidableEq α] : List (α × ℕ) → α → List (α × ℕ)
  | [], k => [(k, 1)]
  | (k0, c) :: rest, k =>
    if k0 = k then (k0, c + 1) :: rest else (k0, c) :: bumpCount rest k

/-- Dictionary read with default 0 (Python counts.get(k, 0)). -/
def lookupCount {α : Type} [DecidableEq α] : List (α × ℕ) → α → ℕ
  | [], _ => 0
  | (k0, c) :: rest, k => if k0 = k then c else lookupCount rest k

/-! ## Metrics collector (src/engine/metrics.py, MetricsCollector) -/

/-- Substring test: Python's needle in hay. -/
def substrContains (hay needle : List Char) : Bool :=
  hay.tails.any (fun t => needle.isPrefixOf t)

/-- Error-category normalization from MetricsCollector.compute_metrics:
error_type = r.error or unknown, then any string containing timeout maps to
timeout, any containing connection maps to connection_error, else the raw
string is kept. -/
def normalizeErrorType (e : Option String) : String :=
  let raw := e.getD "unknown"
  let low := raw.toList.map Char.toLower
  if substrContains low ("timeout".toList) then "timeout"
  else if substrContains low ("connection".toList) then "connection_error"
  else raw

/-- Failure test from compute_metrics: error set or status code absent. -/
def isFailed (r : RequestResult) : Bool :=
  r.error.isSome || r.status_code.isNone

/-- Success test from compute_metrics: no error and a status code present. -/
def isSuccessful (r : RequestResult) : Bool :=
  r.error.isNone && r.status_code.isSome

/-- The errors_by_type histogram over the failed results. -/
def errorsByType (failed : List RequestResult) : List (String × ℕ) :=
  failed.foldl (fun m r => bumpCount m (normalizeErrorType r.error)) []

/-- The status_code_counts histogram over the non-null status codes. -/
def statusCodeCounts (results : List RequestResult) : List (ℕ × ℕ) :=
  results.foldl
    (fun m r =>
      match r.status_code with
      | some s => bumpCount m s
      | none => m)
    []

/-- MetricsCollector._percentile.  sorted_data is the ascending latency
list; p the percentile in [0, 100].  Python's int(k) truncation agrees with
the floor for the nonnegative k arising from p ≥ 0. -/
def percentile (sorted_data : List ℚ) (p : ℚ) : ℚ :=
  if sorted_data = [] then 0
  else
    let n := sorted_data.length
    if n = 1 then sorted_data.getD 0 0
    else
      let k : ℚ := ((n : ℚ) - 1) * (p / 100)
      let f : ℕ := (⌊k⌋).toNat
      let c : ℕ := if f + 1 < n then f + 1 else f
      if f = c then sorted_data.getD f 0
      else sorted_data.getD f 0 * ((c : ℚ) - k) + sorted_data.getD c 0 * (k - (f : ℚ))

/-- MetricsCollector.compute_metrics.  The start/end timestamps are
abstracted into the optional duration (end - start, present when both were
stamped); everything else follows the source line by line. -/
def computeMetrics (results : List RequestResult) (duration : Option ℚ) : Metrics :=
  if results = [] then {}
  else
    let successful := results.filter (fun r => isSuccessful r)
    let failed := results.filter (fun r => isFailed r)
    let latencies := (results.filter (fun r => 0 < r.latency_ms)).map (fun r => r.latency_ms)
    let rps : Option ℚ :=
      match duration with
      | some d => if 0 < d then some ((results.length : ℚ) / d) else none
      | none => none
    let base : Metrics :=
      { total_requests := results.length
        successful_requests := successful.length
        failed_requests := failed.length
        status_code_counts := statusCodeCounts results
        errors_by_type := errorsByType failed
        total_bytes_received := (successful.map (fun r => r.response_size_bytes.getD 0)).sum
        duration_seconds := duration
        requests_per_second := rps }
    let withLat : Metrics :=
      if latencies = [] then base
      else
        let sortedL := List.insertionSort (· ≤ ·) latencies
        { base with
          latency_min_ms := some (sortedL.headD 0)
          latency_max_ms := some (sortedL.getLastD 0)
          latency_mean_ms := some (latencies.sum / (latencies.length : ℚ))
          latency_p50_ms := some (percentile sortedL 50)
          latency_p90_ms := some (percentile sortedL 90)
          latency_p95_ms := some (percentile sortedL 95)
          latency_p99_ms := some (percentile sortedL 99) }
    if 0 < withLat.total_requests then
      { withLat with
        error_rate := some ((withLat.failed_requests : ℚ) / (withLat.total_requests : ℚ)) }
    else withLat

/-! ## Threshold evaluation (MetricsCollector.check_thresholds)

The Python appends reasons in a fixed order; each check below returns the
(empty or singleton) list of reasons it contributes, and check_thresholds
is their concatenation.  Python float truthiness is kept: an unset (None)
or zero metric never triggers a latency or error-rate reason.  The numeric
text inside a reason abbreviates Python's fixed-point formatting; the
wording around it is the source's. -/

/-- Reason for any failed requests. -/
def failedReason (m : Metrics) : List String :=
  if 0 < m.failed_requests then [toString m.failed_requests ++ " request(s) failed"] else []

/-- Reason for the p50 latency threshold. -/
def p50Reason (th : Thresholds) (m : Metrics) : List String :=
  match th.max_latency_p50_ms with
  | none => []
  | some lim =>
    match m.latency_p50_ms with
    | none => []
    | some v =>
      if v ≠ 0 ∧ lim < v then
        ["P50 latency " ++ toString v ++ "ms exceeds threshold " ++ toString lim ++ "ms"]
      else []

/-- Reason for the p95 latency threshold. -/
def p95Reason (th : Thresholds) (m : Metrics) : List String :=
  match th.max_latency_p95_ms with
  | none => []
  | some lim =>
    match m.latency_p95_ms with
    | none => []
    | some v =>
      if v ≠ 0 ∧ lim < v then
        ["P95 latency " ++ toString v ++ "ms exceeds threshold " ++ toString lim ++ "ms"]
      else []

/-- Reason for the p99 latency threshold. -/
def p99Reason (th : Thresholds) (m : Metrics) : List String :=
  match th.max_latency_p99_ms with
  | none => []
  | some lim =>
    match m.latency_p99_ms with
    | none => []
    | some v =>
      if v ≠ 0 ∧ lim < v then
        ["P99 latency " ++ toString v ++ "ms exceeds threshold " ++ toString lim ++ "ms"]
      else []

/-- Reason for the error-rate threshold. -/
def errorRateReason (th : Thresholds) (m : Metrics) : List String :=
  match th.max_error_rate with
  | none => []
  | some lim =>
    match m.error_rate with
    | none => []
    | some v =>
      if v ≠ 0 ∧ lim < v then
        ["Error rate " ++ toString v ++ " exceeds threshold " ++ toString lim]
      else []

/-- Reason for the minimum-throughput threshold (fires when throughput is
undefined or below the limit). -/
def throughputReason (th : Thresholds) (m : Metrics) : List String :=
  match th.min_throughput_rps with
  | none => []
  | some lim =>
    let bad : Bool :=
      match m.requests_per_second with
      | none => true
      | some rps => decide (rps < lim)
    if bad then
      let actual : ℚ := m.requests_per_second.getD 0
      ["Throughput " ++ toString actual ++ " rps below threshold " ++ toString lim ++ " rps"]
    else []

/-- Reasons for observed status codes outside the expected set, in the
histogram's insertion order. -/
def statusReasons (expected : List ℕ) (m : Metrics) : List String :=
  m.status_code_counts.filterMap
    (fun sc =>
      if sc.1 ∈ expected then none
      else some ("Received " ++ toString sc.2 ++ " responses with unexpected status code " ++ toString sc.1))

/-- MetricsCollector.check_thresholds: (passed, failure_reasons). -/
def checkThresholds (results : List RequestResult) (duration : Option ℚ)
    (th : Thresholds) (expected : List ℕ) : Bool × List String :=
  let m := computeMetrics results duration
  let failures :=
    failedReason m ++ p50Reason th m ++ p95Reason th m ++ p99Reason th m ++
      errorRateReason th m ++ throughputReason th m ++ statusReasons expected m
  (failures.isEmpty, failures)

/-! ## Endpoint selector (src/engine/executor.py, EndpointSelector) -/

/-- EndpointSpec, restricted to the fields selection reads. -/
structure EndpointSpec where
  name : String := ""
  url : String := ""
  weight : ℕ := 1
  deriving DecidableEq, Repr, Inhabited

/-- One round-robin select call.  The itertools.cycle iterator is the
counter rr of nexts already taken; the k = 1 shortcut in select returns
endpoints[0] without advancing the iterator. -/
def selectRoundRobin (eps : List EndpointSpec) (rr : ℕ) : EndpointSpec × ℕ :=
  if eps.length = 1 then (eps.getD 0 default, rr)
  else (eps.getD (rr % eps.length) default, rr + 1)

/-- Iterator state after n round-robin select calls on a fresh selector. -/
def rrStateAfter (eps : List EndpointSpec) : ℕ → ℕ
  | 0 => 0
  | n + 1 => (selectRoundRobin eps (rrStateAfter eps n)).2

/-- Result of the i-th (1-indexed) round-robin select call on a fresh
selector.  The executor issues select(i) as the i-th call: each task calls
select before its first suspension point, and the tasks are started in
request order. -/
def rrNthSelect (eps : List EndpointSpec) (i : ℕ) : EndpointSpec :=
  (selectRoundRobin eps (rrStateAfter eps (i - 1))).1

/-- Range construction loop of EndpointSelector.__init__ for the
sequential strategy: q = total // k, r = total % k, and endpoint i gets
count q plus one extra while i < r; ranges are (current, current + count]
half-open from the left. -/
def seqRangesAux (q r : ℕ) : ℕ → ℕ → List EndpointSpec → List (ℕ × ℕ × EndpointSpec)
  | _, _, [] => []
  | i, cur, ep :: rest =>
    let cnt := q + (if i < r then 1 else 0)
    (cur, cur + cnt, ep) :: seqRangesAux q r (i + 1) (cur + cnt) rest

/-- The precomputed _sequential_ranges. -/
def sequentialRanges (total : ℕ) (eps : List EndpointSpec) : List (ℕ × ℕ × EndpointSpec) :=
  seqRangesAux (total / eps.length) (total % eps.length) 0 0 eps

/-- EndpointSelector.select under the sequential strategy: the k = 1
shortcut, then the first range with start < request_num ≤ end, with the
last endpoint as fallback. -/
def seqSelect (eps : List EndpointSpec) (ranges : List (ℕ × ℕ × EndpointSpec))
    (request_num : ℕ) : EndpointSpec :=
  if eps.length = 1 then eps.getD 0 default
  else
    match ranges.find? (fun t => decide (t.1 < request_num) && decide (request_num ≤ t.2.1)) with
    | some t => t.2.2
    | none => eps.getLastD default

/-! ## Request sampling (TestExecutor.run, execute_request) -/

/-- Sampling capacity: max_sampled = 20 in TestExecutor.run. -/
def maxSampled : ℕ := 20

/-- Treatment of one completed outcome by execute_request's sampling: a
failure (exception path, error set) is appended unconditionally; a success
is appended only while the shared sampled list holds fewer than
maxSampled entries. -/
def sampleStep (acc : List RequestResult) (r : RequestResult) : List RequestResult :=
  if r.error.isSome then acc ++ [r]
  else if acc.length < maxSampled then acc ++ [r]
  else acc

/-- The sampled_results list after all outcomes, taken in completion
order, have been processed. -/
def sampledAccum (rs : List RequestResult) : List RequestResult :=
  rs.foldl sampleStep []

/-- Ordering used for publishing sampled requests. -/
def rnLE (a b : RequestResult) : Prop :=
  a.request_number ≤ b.request_number

instance : DecidableRel rnLE := fun a b => Nat.decLe a.request_number b.request_number

instance : IsTotal RequestResult rnLE := ⟨fun a b => Nat.le_total a.request_number b.request_number⟩

instance : IsTrans RequestResult rnLE := ⟨fun _ _ _ h1 h2 => Nat.le_trans h1 h2⟩

/-- RunResult.sampled_requests: the sampled list sorted by request
number (executor.py line 415). -/
def finalSampled (rs : List RequestResult) : List RequestResult :=
  List.insertionSort rnLE (sampledAccum rs)

/-! ## Run finalization (TestExecutor.run) -/

/-- How one logical request task ends: cancellation observed at the first
checkpoint (before the semaphore), cancellation observed after the
semaphore and the rate limiter, or a dispatched request finishing with the
given response fields. -/
inductive TaskFate where
  | cancelledEarly
  | cancelledLate
  | finished (status_code : Option ℕ) (error : Option String) (latency : ℚ) (size : Option ℕ)
  deriving DecidableEq, Repr

/-- Whether the task observed cancellation. -/
def fateCancelled : TaskFate → Bool
  | .cancelledEarly => true
  | .cancelledLate => true
  | .finished _ _ _ _ => false

/-- The RequestResult a task records: both cancellation checkpoints build
RequestResult(request_number, latency_ms=0, error=cancelled); a dispatched
request records its response or exception fields. -/
def taskOutcome (n : ℕ) : TaskFate → RequestResult
  | .cancelledEarly => { request_number := n, latency_ms := 0, error := some "cancelled" }
  | .cancelledLate => { request_number := n, latency_ms := 0, error := some "cancelled" }
  | .finished sc err lat sz =>
    { request_number := n, status_code := sc, error := err, latency_ms := lat,
      response_size_bytes := sz }

/-- The results added to the metrics collector: every task, cancelled or
not, adds exactly one outcome.  fates lists the per-task fates in request
order (the collector's final count does not depend on completion order). -/
def runOutcomes (fates : List TaskFate) : List RequestResult :=
  List.zipWith (fun i f => taskOutcome (i + 1) f) (List.range fates.length) fates

/-- The fields of the final RunResult that the cancellation claim reads. -/
structure RunFinal where
  status : RunStatus
  requests_completed : ℕ
  metrics : Metrics
  deriving Repr

/-- Finalization at the end of TestExecutor.run: requests_completed is
overwritten with the collector's count, the final metrics are computed,
and the terminal status is cancelled exactly when the cancel event is set. -/
def finalizeRun (fates : List TaskFate) (cancelSignalled : Bool) (duration : Option ℚ) :
    RunFinal :=
  let results := runOutcomes fates
  { status := if cancelSignalled then RunStatus.cancelled else RunStatus.completed
    requests_completed := results.length
    metrics := computeMetrics results duration }

/-! ## Token cache (src/engine/auth.py, TokenCache) -/

/-- First-match association lookup (Python dict read; keys are unique). -/
def assocFind {α : Type} : List (String × α) → String → Option α
  | [], _ => none
  | (k0, v) :: rest, k => if k0 = k then some v else assocFind rest k

/-- Python dict assignment: replace in place, else append. -/
def assocUpdate {α : Type} : List (String × α) → String → α → List (String × α)
  | [], k, v => [(k, v)]
  | (k0, v0) :: rest, k, v =>
    if k0 = k then (k, v) :: rest else (k0, v0) :: assocUpdate rest k v

/-- Python del on a dict. -/
def assocRemove {α : Type} : List (String × α) → String → List (String × α)
  | [], _ => []
  | (k0, v0) :: rest, k =>
    if k0 = k then rest else (k0, v0) :: assocRemove rest k

/-- TokenCache.set: the stored expiry subtracts the refresh buffer
min(30, expires_in // 10) -- Python integer division -- from now + expires_in. -/
def tokenCacheSet (cache : List (String × String × ℚ)) (key token : String)
    (expires_in : ℕ) (now : ℚ) : List (String × String × ℚ) :=
  let buffer : ℕ := min 30 (expires_in / 10)
  let expires_at : ℚ := now + (expires_in : ℚ) - (buffer : ℚ)
  assocUpdate cache key (token, expires_at)

/-- TokenCache.get: a hit strictly before the stored expiry returns the
token; otherwise the stale entry is deleted and the result is none.  The
pair is (returned value, cache afterwards). -/
def tokenCacheGet (cache : List (String × String × ℚ)) (key : String) (now : ℚ) :
    Option String × List (String × String × ℚ) :=
  match assocFind cache key with
  | some (token, expires_at) =>
    if now < expires_at then (some token, cache) else (none, assocRemove cache key)
  | none => (none, cache)

/-! ## Template engine (src/engine/templating.py, TemplateEngine) -/

/-- Word characters of the placeholder grammar [A-Za-z0-9_]. -/
def isWordChar (c : Char) : Bool :=
  c.isAlphanum || c = '_'

/-- Context of one substitute call.  baseVariables is the resolver's base
map (the source's self.variables attribute), extraVars the call-site
extras, envVars the process environment; the clock- and randomness-reading
built-ins are abstracted as the string each would produce on this call. -/
structure TemplateCtx where
  baseVariables : List (String × String) := []
  extraVars : List (String × String) := []
  envVars : List (String × String) := []
  uuidVal : String := ""
  timestampVal : String := ""
  timestampUnixVal : String := ""
  randomIntVal : String := ""

/-- TemplateEngine._get_builtin_value. -/
def getBuiltinValue (ctx : TemplateCtx) (request_number : ℕ) (name : String) : Option String :=
  if name = "uuid" then some ctx.uuidVal
  else if name = "timestamp" then some ctx.timestampVal
  else if name = "timestamp_unix" then some ctx.timestampUnixVal
  else if name = "request_number" then some (toString request_number)
  else if name = "random_int" then some ctx.randomIntVal
  else none

/-- Python os.environ.get. -/
def getEnvValue (ctx : TemplateCtx) (name : String) : Option String :=
  assocFind ctx.envVars name

/-- TemplateEngine._get_target_value: TARGET_ plus the upper-cased name. -/
def getTargetValue (ctx : TemplateCtx) (name : String) : Option String :=
  assocFind ctx.envVars ("TARGET_" ++ name.toUpper)

/-- Lookup in merged_vars = {**variables, **extra_vars}: a dict merge in
which the call-site extras shadow the base map. -/
def mergedLookup (ctx : TemplateCtx) (k : String) : Option String :=
  match assocFind ctx.extraVars k with
  | some v => some v
  | none => assocFind ctx.baseVariables k

/-- The original matched text of a placeholder with the given key. -/
def wholeMatch (key : List Char) : List Char :=
  '{' :: '{' :: (key ++ ['}', '}'])

/-- The replace_match callback of TemplateEngine.substitute, on the key
captured by the pattern.  A prefixed key is split at its first colon; env
and target placeholders resolve from the environment or are emitted
unchanged; any other key is looked up in the merged variables, then the
built-ins, and an unresolved placeholder is emitted unchanged. -/
def replaceMatch (ctx : TemplateCtx) (request_number : ℕ) (key : List Char) : List Char :=
  let bare : List Char :=
    match mergedLookup ctx (String.mk key) with
    | some v => v.toList
    | none =>
      match getBuiltinValue ctx request_number (String.mk key) with
      | some v => v.toList
      | none => wholeMatch key
  if ':' ∈ key then
    let pre := key.takeWhile (fun c => c ≠ ':')
    let name := (key.dropWhile (fun c => c ≠ ':')).tail
    if String.mk pre = "env" then
      match getEnvValue ctx (String.mk name) with
      | some v => v.toList
      | none => wholeMatch key
    else if String.mk pre = "target" then
      match getTargetValue ctx (String.mk name) with
      | some v => v.toList
      | none => wholeMatch key
    else bare
  else bare

/-- Attempt to match the placeholder body directly after an opening
double brace: a nonempty word-character run, an optional colon plus a
second nonempty run, then a closing double brace.  Returns the captured
key; the match occupies key.length + 2 characters (the closing braces).
Because word characters, the colon and the closing brace are disjoint,
this maximal-munch scan is exactly the regex pattern of TemplateEngine. -/
def tryPlaceholder (l : List Char) : Option (List Char) :=
  let w1 := l.takeWhile isWordChar
  let r1 := l.dropWhile isWordChar
  if w1.isEmpty then none
  else
    match r1 with
    | ':' :: r2 =>
      let w2 := r2.takeWhile isWordChar
      let r3 := r2.dropWhile isWordChar
      if w2.isEmpty then none
      else
        match r3 with
        | '}' :: '}' :: _ => some (w1 ++ ':' :: w2)
        | _ => none
    | '}' :: '}' :: _ => some w1
    | _ => none

/-- Scanner of TemplateEngine.substitute, one re.sub pass: at an opening
double brace a placeholder match is attempted; on success the matched
key.length + 2 characters are consumed and replaced through res; on
failure the scan advances a single character, exactly as re.sub does. -/
def substituteAux (res : List Char → List Char) : List Char → List Char
  | [] => []
  | '{' :: '{' :: r2 =>
    match tryPlaceholder r2 with
    | some key => res key ++ substituteAux res (r2.drop (key.length + 2))
    | none => '{' :: substituteAux res ('{' :: r2)
  | c :: rest => c :: substituteAux res rest
termination_by l => l.length
decreasing_by
  all_goals simp only [List.length_cons, List.length_drop]
  all_goals omega

/-- TemplateEngine.substitute over a character list. -/
def substituteT (ctx : TemplateCtx) (request_number : ℕ) (l : List Char) : List Char :=
  substituteAux (replaceMatch ctx request_number) l


/-! ## Claim-side definitions and concrete inputs -/

/-- Percentile formula exactly as the specification words it: over sorted
values v of length n, k = (n-1)*p/100, f = floor k, c = min (f+1) (n-1),
return v[f]*(c-k) + v[c]*(k-f); for n = 1 return v[0].  Stated separately
from the source's percentile so the two can be compared. -/
def percentileSpec (v : List ℚ) (p : ℚ) : ℚ :=
  let n := v.length
  if n = 1 then v.getD 0 0
  else
    let k : ℚ := ((n : ℚ) - 1) * p / 100
    let f : ℕ := (⌊k⌋).toNat
    let c : ℕ := min (f + 1) (n - 1)
    v.getD f 0 * ((c : ℚ) - k) + v.getD c 0 * (k - (f : ℚ))

/-- Ten requests that all received a 500 response and no transport error. -/
def tenFiveHundred : List RequestResult :=
  (List.range 10).map (fun j => { request_number := j + 1, status_code := some 500, latency_ms := 5 })

/-- Twenty failure outcomes completing ahead of any success. -/
def sampleCexFailures : List RequestResult :=
  (List.range 20).map (fun j => { request_number := j + 1, latency_ms := 1, error := some "timeout" })

/-- The first success outcome of that run, completing after the failures. -/
def sampleCexSuccess : RequestResult :=
  { request_number := 21, status_code := some 200, latency_ms := 1 }

/-- A run of twenty failures followed by one success, in completion order. -/
def sampleCexRun : List RequestResult :=
  sampleCexFailures ++ [sampleCexSuccess]

/-- A two-request run in which the second task observed cancellation
before dispatch and the first finished with a 200. -/
def cancelCexFates : List TaskFate :=
  [.finished (some 200) none 5 (some 10), .cancelledEarly]

/-- A single cancelled outcome: latency 0, no status code. -/
def zeroLatResult : RequestResult :=
  { request_number := 1, latency_ms := 0, error := some "cancelled" }

/-- Thresholds with every latency limit configured. -/
def latThresholds : Thresholds :=
  { max_latency_p50_ms := some 10, max_latency_p95_ms := some 10, max_latency_p99_ms := some 10 }

/-- Sizes of the precomputed sequential blocks, in endpoint order. -/
def seqSizes (total : ℕ) (eps : List EndpointSpec) : List ℕ :=
  (sequentialRanges total eps).map (fun t => t.2.1 - t.1)

/-- Three endpoints named A, B, C. -/
def threeEndpoints : List EndpointSpec :=
  [{ name := "A" }, { name := "B" }, { name := "C" }]

/-- Substitution context used by the template witness: the key a is bound
in both layers with different values, the environment holds only HOME. -/
def exampleCtx : TemplateCtx :=
  { baseVariables := [("a", "base"), ("b", "2")], extraVars := [("a", "extra")],
    envVars := [("HOME", "/root")] }

/-! # Theorems -/

/-! ## C1: rate limiter progress -/

/-- With a bucket capacity below one token, the refill is capped below one
token forever, so the acquire loop never returns. -/
theorem acquireLoop_stalls_of_burst_lt_one (rate burstQ : ℚ) (hb : burstQ < 1) :
    ∀ (es : List ℚ) (tokens : ℚ), acquireLoop rate burstQ es tokens = none := by
  intro es
  induction es with
  | nil => intro tokens; rfl
  | cons e rest ih =>
    intro tokens
    have hlt : ¬ (1 ≤ min burstQ (tokens + e * rate)) := by
      have : min burstQ (tokens + e * rate) ≤ burstQ := min_le_left _ _
      linarith
    simp only [acquireLoop, hlt, if_false]
    exact ih _

/-- C1: the claim promises that, for every rate the spec admits
(0.1 ≤ rate ≤ 10000) with the default burst = floor(rate), every acquire
call returns after a finite wait.  The code violates this: at rate 0.5 the
default burst is int(0.5) = 0, the token level is clamped to
min(0, tokens + elapsed*rate) ≤ 0 < 1 on every iteration, and acquire
loops forever -- no sequence of elapsed times, however long, makes the
call return.  The rate-limiter's own docstring (and the spec) promise the
call waits only until a token becomes available. -/
theorem c1_acquire_never_returns_at_rate_half :
    ∀ elapsed : List ℚ, acquireFromFresh (1 / 2) elapsed = none := by
  intro elapsed
  have hfloor : (⌊(1 / 2 : ℚ)⌋ : ℤ) = 0 := by norm_num
  unfold acquireFromFresh mkTokenBucket
  simp only [hfloor]
  exact acquireLoop_stalls_of_burst_lt_one _ _ (by norm_num) _ _

/-! ## Metrics collector helper lemmas -/

/-- compute_metrics on an empty result list returns the default record. -/
theorem computeMetrics_nil (d : Option ℚ) : computeMetrics [] d = {} := by
  simp [computeMetrics]

/-- Total request count of the computed metrics. -/
theorem computeMetrics_total (rs : List RequestResult) (d : Option ℚ) (h : rs ≠ []) :
    (computeMetrics rs d).total_requests = rs.length := by
  simp only [computeMetrics, if_neg h]
  split <;> split <;> rfl

/-- Failed request count of the computed metrics. -/
theorem computeMetrics_failed (rs : List RequestResult) (d : Option ℚ) (h : rs ≠ []) :
    (computeMetrics rs d).failed_requests = (rs.filter (fun r => isFailed r)).length := by
  simp only [computeMetrics, if_neg h]
  split <;> split <;> rfl

/-- Successful request count of the computed metrics. -/
theorem computeMetrics_successful (rs : List RequestResult) (d : Option ℚ) (h : rs ≠ []) :
    (computeMetrics rs d).successful_requests = (rs.filter (fun r => isSuccessful r)).length := by
  simp only [computeMetrics, if_neg h]
  split <;> split <;> rfl

/-- Error histogram of the computed metrics. -/
theorem computeMetrics_errors (rs : List RequestResult) (d : Option ℚ) (h : rs ≠ []) :
    (computeMetrics rs d).errors_by_type = errorsByType (rs.filter (fun r => isFailed r)) := by
  simp only [computeMetrics, if_neg h]
  split <;> split <;> rfl

/-- Error rate of the computed metrics on a non-empty result list. -/
theorem computeMetrics_error_rate (rs : List RequestResult) (d : Option ℚ) (h : rs ≠ []) :
    (computeMetrics rs d).error_rate =
      some (((rs.filter (fun r => isFailed r)).length : ℚ) / (rs.length : ℚ)) := by
  have hpos : 0 < rs.length := List.length_pos.mpr h
  simp only [computeMetrics, if_neg h]
  split <;> split <;> rfl

/-- Pointwise complement of the success and failure tests. -/
theorem isSuccessful_eq_not_isFailed (r : RequestResult) :
    isSuccessful r = !(isFailed r) := by
  cases herr : r.error <;> cases hsc : r.status_code <;>
    simp [isSuccessful, isFailed, herr, hsc]

/-- Filtering a predicate and its negation splits the length. -/
theorem length_filter_add_length_filter_not {α : Type} (p : α → Bool) (l : List α) :
    (l.filter p).length + (l.filter (fun a => !(p a))).length = l.length := by
  induction l with
  | nil => rfl
  | cons a t ih =>
    cases h : p a <;> simp [List.filter_cons, h] <;> omega

/-! ## C5: percentile computation -/

/-- C5: for every non-empty sorted latency list and every percentile p in
{50, 90, 95, 99}, the collector's percentile function computes exactly the
interpolation formula of the specification: v[0] for a singleton,
otherwise v[f]*(c-k) + v[c]*(k-f) with k = (n-1)*p/100, f = floor k and
c = min (f+1) (n-1).  For p < 100 the index f+1 never reaches n, so the
code's guarded branch c = f+1 coincides with the spec's min, and the
code's equal-indices early return is unreachable. -/
theorem c5_percentile_matches_spec (v : List ℚ) (p : ℚ) (hv : v ≠ [])
    (hsorted : List.Sorted (· ≤ ·) v)
    (hp : p = 50 ∨ p = 90 ∨ p = 95 ∨ p = 99) :
    percentile v p = percentileSpec v p := by
  have hp0 : 0 ≤ p := by rcases hp with h | h | h | h <;> rw [h] <;> norm_num
  have hp100 : p < 100 := by rcases hp with h | h | h | h <;> rw [h] <;> norm_num
  rw [percentile, percentileSpec, if_neg hv]
  by_cases h1 : v.length = 1
  · simp [h1]
  · simp only [if_neg h1]
    have hn2 : 2 ≤ v.length := by
      have h0 : v.length ≠ 0 := fun hz => hv (List.length_eq_zero.mp hz)
      omega
    have hn1Q : (1 : ℚ) ≤ ((v.length : ℚ) - 1) := by
      have : (2 : ℚ) ≤ (v.length : ℚ) := by exact_mod_cast hn2
      linarith
    set k : ℚ := ((v.length : ℚ) - 1) * (p / 100) with hkdef
    have hk0 : 0 ≤ k := by
      apply mul_nonneg (by linarith) (by positivity)
    have hklt : k < (v.length : ℚ) - 1 := by
      have hfrac : p / 100 < 1 := (div_lt_one (by norm_num : (0:ℚ) < 100)).mpr hp100
      calc k = ((v.length : ℚ) - 1) * (p / 100) := rfl
        _ < ((v.length : ℚ) - 1) * 1 := by
            apply mul_lt_mul_of_pos_left hfrac (by linarith)
        _ = (v.length : ℚ) - 1 := mul_one _
    have hfloor_lt : ⌊k⌋ < (v.length : ℤ) - 1 := by
      have h1le : (⌊k⌋ : ℚ) ≤ k := Int.floor_le k
      have : (⌊k⌋ : ℚ) < (v.length : ℚ) - 1 := lt_of_le_of_lt h1le hklt
      exact_mod_cast this
    have hfloor_0 : 0 ≤ ⌊k⌋ := Int.floor_nonneg.mpr hk0
    have hf_lt : (⌊k⌋).toNat + 1 < v.length := by omega
    have hmin : min ((⌊k⌋).toNat + 1) (v.length - 1) = (⌊k⌋).toNat + 1 := by omega
    have hkeq : ((v.length : ℚ) - 1) * p / 100 = k := by rw [hkdef]; ring
    simp only [hkeq, if_pos hf_lt, hmin]
    rw [if_neg (by omega)]

/-- Witness for C5 at v = [1, 2, 3, 4] and p = 95: both sides are 77/20. -/
theorem c5_witness :
    percentile [1, 2, 3, 4] 95 = percentileSpec [1, 2, 3, 4] 95 :=
  c5_percentile_matches_spec [1, 2, 3, 4] 95 (by decide)
    (by norm_num [List.sorted_cons]) (by norm_num)

/-! ## C4: success and failure counting -/

/-- C4: compute_metrics counts a result as failed exactly when its error
is set or its status code is absent, sets successful = total - failed (so
responses with unexpected status codes still count as successful), and
sets error_rate = failed/total whenever at least one result was
collected. -/
theorem c4_success_failure_counting (results : List RequestResult) (duration : Option ℚ) :
    (computeMetrics results duration).total_requests = results.length ∧
    (computeMetrics results duration).failed_requests =
      results.countP (fun r => isFailed r) ∧
    (computeMetrics results duration).successful_requests =
      (computeMetrics results duration).total_requests -
        (computeMetrics results duration).failed_requests ∧
    (results ≠ [] →
      (computeMetrics results duration).error_rate =
        some (((computeMetrics results duration).failed_requests : ℚ) /
          ((computeMetrics results duration).total_requests : ℚ))) := by
  by_cases h : results = []
  · subst h
    refine ⟨?_, ?_, ?_, ?_⟩ <;> simp [computeMetrics_nil]
  · have htot := computeMetrics_total results duration h
    have hfail := computeMetrics_failed results duration h
    have hsucc := computeMetrics_successful results duration h
    have herate := computeMetrics_error_rate results duration h
    refine ⟨htot, ?_, ?_, ?_⟩
    · rw [hfail, List.countP_eq_length_filter]
    · rw [hsucc, htot, hfail]
      have hsplit := length_filter_add_length_filter_not (fun r => isFailed r) results
      have hcompl : results.filter (fun r => isSuccessful r) =
          results.filter (fun r => !(isFailed r)) := by
        apply List.filter_congr
        intro r _
        exact isSuccessful_eq_not_isFailed r
      rw [hcompl]
      omega
    · intro _
      rw [herate, htot, hfail]

/-- Witness for C4: ten 500-responses with no transport error give
successful_requests = 10, failed_requests = 0 and error_rate = 0. -/
theorem c4_witness :
    (computeMetrics tenFiveHundred none).total_requests = tenFiveHundred.length ∧
    (computeMetrics tenFiveHundred none).failed_requests =
      tenFiveHundred.countP (fun r => isFailed r) ∧
    (computeMetrics tenFiveHundred none).successful_requests =
      (computeMetrics tenFiveHundred none).total_requests -
        (computeMetrics tenFiveHundred none).failed_requests ∧
    (tenFiveHundred ≠ [] →
      (computeMetrics tenFiveHundred none).error_rate =
        some (((computeMetrics tenFiveHundred none).failed_requests : ℚ) /
          ((computeMetrics tenFiveHundred none).total_requests : ℚ))) :=
  c4_success_failure_counting tenFiveHundred none

/-! ## C10: latency thresholds without positive latency samples -/

/-- With no positive latency sample, compute_metrics never enters its
latency block, leaving every latency statistic unset. -/
theorem computeMetrics_latency_fields (rs : List RequestResult) (d : Option ℚ)
    (h : rs.filter (fun r => 0 < r.latency_ms) = []) :
    (computeMetrics rs d).latency_min_ms = none ∧
    (computeMetrics rs d).latency_max_ms = none ∧
    (computeMetrics rs d).latency_mean_ms = none ∧
    (computeMetrics rs d).latency_p50_ms = none ∧
    (computeMetrics rs d).latency_p90_ms = none ∧
    (computeMetrics rs d).latency_p95_ms = none ∧
    (computeMetrics rs d).latency_p99_ms = none := by
  by_cases hrs : rs = []
  · subst hrs
    simp [computeMetrics_nil]
  · simp only [computeMetrics, if_neg hrs, h, List.map_nil]
    split <;> split <;> simp_all

/-- C10: if no collected result has a positive latency, every latency
field of the computed metrics stays unset, and the three latency
threshold checks of check_thresholds contribute no failure reason even
when their limits are configured.  (checkThresholds concatenates the
per-check reason lists, so empty latency components mean no latency
reason can appear.) -/
theorem c10_no_latency_threshold_reasons (results : List RequestResult)
    (duration : Option ℚ) (th : Thresholds)
    (h : ∀ r ∈ results, ¬ (0 < r.latency_ms)) :
    (computeMetrics results duration).latency_min_ms = none ∧
    (computeMetrics results duration).latency_max_ms = none ∧
    (computeMetrics results duration).latency_mean_ms = none ∧
    (computeMetrics results duration).latency_p50_ms = none ∧
    (computeMetrics results duration).latency_p90_ms = none ∧
    (computeMetrics results duration).latency_p95_ms = none ∧
    (computeMetrics results duration).latency_p99_ms = none ∧
    p50Reason th (computeMetrics results duration) = [] ∧
    p95Reason th (computeMetrics results duration) = [] ∧
    p99Reason th (computeMetrics results duration) = [] := by
  have hfil : results.filter (fun r => 0 < r.latency_ms) = [] := by
    rw [List.filter_eq_nil]
    intro r hr
    simpa using h r hr
  obtain ⟨h1, h2, h3, h4, h5, h6, h7⟩ :=
    computeMetrics_latency_fields results duration hfil
  refine ⟨h1, h2, h3, h4, h5, h6, h7, ?_, ?_, ?_⟩
  · unfold p50Reason
    cases hth : th.max_latency_p50_ms <;> simp [h4]
  · unfold p95Reason
    cases hth : th.max_latency_p95_ms <;> simp [h6]
  · unfold p99Reason
    cases hth : th.max_latency_p99_ms <;> simp [h7]

/-- Witness for C10: one cancelled outcome (latency 0) under configured
latency limits produces unset latency fields and empty latency reasons. -/
theorem c10_witness :
    (computeMetrics [zeroLatResult] none).latency_min_ms = none ∧
    (computeMetrics [zeroLatResult] none).latency_max_ms = none ∧
    (computeMetrics [zeroLatResult] none).latency_mean_ms = none ∧
    (computeMetrics [zeroLatResult] none).latency_p50_ms = none ∧
    (computeMetrics [zeroLatResult] none).latency_p90_ms = none ∧
    (computeMetrics [zeroLatResult] none).latency_p95_ms = none ∧
    (computeMetrics [zeroLatResult] none).latency_p99_ms = none ∧
    p50Reason latThresholds (computeMetrics [zeroLatResult] none) = [] ∧
    p95Reason latThresholds (computeMetrics [zeroLatResult] none) = [] ∧
    p99Reason latThresholds (computeMetrics [zeroLatResult] none) = [] :=
  c10_no_latency_threshold_reasons [zeroLatResult] none latThresholds
    (by intro r hr; simp [zeroLatResult] at hr; subst hr; norm_num)

/-! ## C6: round-robin selection -/

/-- The cycle iterator advances once per select call, except under the
single-endpoint shortcut where it is never consumed. -/
theorem rrStateAfter_eq (eps : List EndpointSpec) (n : ℕ) :
    rrStateAfter eps n = if eps.length = 1 then 0 else n := by
  induction n with
  | zero => simp [rrStateAfter]
  | succ m ih =>
    by_cases h : eps.length = 1 <;>
      simp [rrStateAfter, selectRoundRobin, h, ih]

/-- C6: under round_robin with k ≥ 1 endpoints, the i-th select call
(1-indexed; the executor issues select(i) as the i-th call) returns
endpoints[(i-1) mod k].  The k = 1 shortcut returns endpoints[0], which
also equals endpoints[(i-1) mod 1]. -/
theorem c6_round_robin (eps : List EndpointSpec) (i : ℕ)
    (h1 : eps ≠ []) (h2 : 1 ≤ i) :
    rrNthSelect eps i = eps.getD ((i - 1) % eps.length) default := by
  unfold rrNthSelect selectRoundRobin
  rw [rrStateAfter_eq]
  by_cases hlen : eps.length = 1
  · simp [hlen, Nat.mod_one]
  · simp [hlen]

/-- Witness for C6: the 5th call on three endpoints returns the second. -/
theorem c6_witness :
    rrNthSelect threeEndpoints 5 = threeEndpoints.getD ((5 - 1) % threeEndpoints.length) default :=
  c6_round_robin threeEndpoints 5 (by decide) (by decide)

/-! ## C7: sequential block partition -/

/-- Length of the precomputed range list. -/
theorem seqRangesAux_length (q r : ℕ) :
    ∀ (eps : List EndpointSpec) (i0 cur : ℕ),
      (seqRangesAux q r i0 cur eps).length = eps.length := by
  intro eps
  induction eps with
  | nil => intro i0 cur; rfl
  | cons ep rest ih => intro i0 cur; simp [seqRangesAux, ih]

/-- Block sizes produced by the range-construction loop: the j-th block
built from loop counter i0 has size q plus one extra while i0 + j < r. -/
theorem seqRangesAux_sizes (q r : ℕ) :
    ∀ (eps : List EndpointSpec) (i0 cur : ℕ),
      (seqRangesAux q r i0 cur eps).map (fun t => t.2.1 - t.1) =
        (List.range eps.length).map (fun j => q + if i0 + j < r then 1 else 0) := by
  intro eps
  induction eps with
  | nil => intro i0 cur; simp [seqRangesAux]
  | cons ep rest ih =>
    intro i0 cur
    simp only [seqRangesAux, List.map_cons, List.length_cons, List.range_succ_eq_map,
      List.map_map]
    refine List.cons_eq_cons.mpr ⟨by simp, ?_⟩
    rw [ih (i0 + 1) (cur + (q + if i0 < r then 1 else 0))]
    apply List.map_congr_left
    intro j _
    simp only [Function.comp]
    congr 1
    exact if_congr (by omega) rfl rfl

/-- Sum of the block sizes built from loop counter i0. -/
theorem seqRangesAux_sum (q r : ℕ) :
    ∀ (eps : List EndpointSpec) (i0 cur : ℕ),
      ((seqRangesAux q r i0 cur eps).map (fun t => t.2.1 - t.1)).sum =
        q * eps.length + (min r (i0 + eps.length) - min r i0) := by
  intro eps
  induction eps with
  | nil => intro i0 cur; simp [seqRangesAux]
  | cons ep rest ih =>
    intro i0 cur
    simp only [seqRangesAux, List.map_cons, List.sum_cons, List.length_cons]
    rw [ih (i0 + 1) (cur + (q + if i0 < r then 1 else 0))]
    by_cases h : i0 < r <;> simp [h] <;> ring_nf <;> omega

/-- The find-first scan of select locates the block containing i whenever
i lies inside the span of the remaining blocks. -/
theorem seqRangesAux_find (q r : ℕ) :
    ∀ (eps : List EndpointSpec) (i0 cur i : ℕ),
      cur < i →
      i ≤ cur + ((seqRangesAux q r i0 cur eps).map (fun t => t.2.1 - t.1)).sum →
      ∃ s e ep, (s, e, ep) ∈ seqRangesAux q r i0 cur eps ∧ s < i ∧ i ≤ e ∧
        (seqRangesAux q r i0 cur eps).find?
          (fun t => decide (t.1 < i) && decide (i ≤ t.2.1)) = some (s, e, ep) := by
  intro eps
  induction eps with
  | nil =>
    intro i0 cur i hlow hhigh
    simp [seqRangesAux] at hhigh
    omega
  | cons ep rest ih =>
    intro i0 cur i hlow hhigh
    simp only [seqRangesAux, List.map_cons, List.sum_cons] at hhigh ⊢
    by_cases hin : i ≤ cur + (q + if i0 < r then 1 else 0)
    · refine ⟨cur, cur + (q + if i0 < r then 1 else 0), ep, List.mem_cons_self _ _, hlow, hin, ?_⟩
      rw [List.find?_cons_of_pos]
      simp [hlow, hin]
    · have hstep : cur + (q + if i0 < r then 1 else 0) < i := by omega
      obtain ⟨s, e, ep2, hmem, hs, he, hfind⟩ :=
        ih (i0 + 1) (cur + (q + if i0 < r then 1 else 0)) i hstep (by omega)
      refine ⟨s, e, ep2, List.mem_cons_of_mem _ hmem, hs, he, ?_⟩
      rw [List.find?_cons_of_neg]
      · exact hfind
      · simp [hin]

/-- C7: the precomputed sequential ranges partition [1, total] into
eps.length contiguous blocks: the sizes sum to total, the j-th size is
total/k plus one extra exactly when j < total mod k (so the sizes differ
by at most one and the first total mod k endpoints get the larger size),
and for every request number i in [1, total], select(i) returns the
endpoint owning the block whose half-open range contains i. -/
theorem c7_sequential_partition (eps : List EndpointSpec) (total : ℕ)
    (heps : eps ≠ []) (htot : 1 ≤ total) :
    (seqSizes total eps).sum = total ∧
    (∀ j, j < eps.length →
      (seqSizes total eps).getD j 0 =
        total / eps.length + if j < total % eps.length then 1 else 0) ∧
    (∀ j1 j2, j1 < eps.length → j2 < eps.length →
      (seqSizes total eps).getD j1 0 ≤ (seqSizes total eps).getD j2 0 + 1) ∧
    (∀ i, 1 ≤ i → i ≤ total →
      ∃ s e ep, (s, e, ep) ∈ sequentialRanges total eps ∧ s < i ∧ i ≤ e ∧
        seqSelect eps (sequentialRanges total eps) i = ep) := by
  have hk : 0 < eps.length := List.length_pos.mpr heps
  have hmod : total % eps.length < eps.length := Nat.mod_lt _ hk
  have hsum : (seqSizes total eps).sum = total := by
    unfold seqSizes sequentialRanges
    rw [seqRangesAux_sum]
    have hmin1 : min (total % eps.length) (0 + eps.length) = total % eps.length := by omega
    have hmin2 : min (total % eps.length) 0 = 0 := by omega
    rw [hmin1, hmin2, Nat.sub_zero, Nat.mul_comm]
    exact Nat.div_add_mod total eps.length
  have hsizes : ∀ j, j < eps.length →
      (seqSizes total eps).getD j 0 =
        total / eps.length + if j < total % eps.length then 1 else 0 := by
    intro j hj
    unfold seqSizes sequentialRanges
    rw [seqRangesAux_sizes]
    have hjlen : j < ((List.range eps.length).map
        (fun j => total / eps.length + if 0 + j < total % eps.length then 1 else 0)).length := by
      simpa using hj
    rw [List.getD_eq_getElem _ _ hjlen]
    simp
  refine ⟨hsum, hsizes, ?_, ?_⟩
  · intro j1 j2 h1 h2
    rw [hsizes j1 h1, hsizes j2 h2]
    split <;> split <;> omega
  · intro i hi1 hi2
    by_cases hone : eps.length = 1
    · obtain ⟨ep0, hep0⟩ := List.length_eq_one.mp hone
      subst hep0
      refine ⟨0, total, ep0, ?_, by omega, by omega, ?_⟩
      · unfold sequentialRanges seqRangesAux
        simp [Nat.mod_one]
      · unfold seqSelect
        simp
    · obtain ⟨s, e, ep, hmem, hs, he, hfind⟩ :=
        seqRangesAux_find (total / eps.length) (total % eps.length) eps 0 0 i
          (by omega)
          (by
            have := hsum
            unfold seqSizes sequentialRanges at this
            omega)
      refine ⟨s, e, ep, hmem, hs, he, ?_⟩
      unfold seqSelect sequentialRanges
      rw [if_neg hone]
      rw [hfind]

/-- Witness for C7 at three endpoints and total = 10: blocks of sizes
4, 3, 3 covering (0,4], (4,7], (7,10]. -/
theorem c7_witness :
    (seqSizes 10 threeEndpoints).sum = 10 ∧
    (∀ j, j < threeEndpoints.length →
      (seqSizes 10 threeEndpoints).getD j 0 =
        10 / threeEndpoints.length + if j < 10 % threeEndpoints.length then 1 else 0) ∧
    (∀ j1 j2, j1 < threeEndpoints.length → j2 < threeEndpoints.length →
      (seqSizes 10 threeEndpoints).getD j1 0 ≤ (seqSizes 10 threeEndpoints).getD j2 0 + 1) ∧
    (∀ i, 1 ≤ i → i ≤ 10 →
      ∃ s e ep, (s, e, ep) ∈ sequentialRanges 10 threeEndpoints ∧ s < i ∧ i ≤ e ∧
        seqSelect threeEndpoints (sequentialRanges 10 threeEndpoints) i = ep) :=
  c7_sequential_partition threeEndpoints 10 (by decide) (by decide)

/-! ## C3: request sampling -/

/-- Folding one more outcome into the sampled list. -/
theorem sampledAccum_append (l : List RequestResult) (r : RequestResult) :
    sampledAccum (l ++ [r]) = sampleStep (sampledAccum l) r := by
  unfold sampledAccum
  rw [List.foldl_append]
  rfl

/-- sampleStep only ever appends. -/
theorem subset_sampleStep (acc : List RequestResult) (r : RequestResult) :
    acc ⊆ sampleStep acc r := by
  unfold sampleStep
  split_ifs <;> first | exact List.subset_append_left _ _ | exact List.Subset.refl _

/-- Entries already sampled survive the rest of the fold. -/
theorem subset_foldl_sampleStep (rs : List RequestResult) :
    ∀ acc : List RequestResult, acc ⊆ rs.foldl sampleStep acc := by
  induction rs with
  | nil => intro acc; exact List.Subset.refl _
  | cons r t ih =>
    intro acc
    exact (subset_sampleStep acc r).trans (ih (sampleStep acc r))

/-- Everything the fold samples comes from the processed outcomes. -/
theorem foldl_sampleStep_subset (rs : List RequestResult) :
    ∀ acc : List RequestResult, rs.foldl sampleStep acc ⊆ acc ++ rs := by
  induction rs with
  | nil => intro acc; simp
  | cons r t ih =>
    intro acc x hx
    have hx2 : x ∈ (sampleStep acc r) ++ t := ih (sampleStep acc r) hx
    rcases List.mem_append.mp hx2 with h | h
    · have : x ∈ acc ++ [r] := by
        unfold sampleStep at h
        split_ifs at h <;> simp_all
      rcases List.mem_append.mp this with h2 | h2
      · exact List.mem_append.mpr (Or.inl h2)
      · simp at h2
        subst h2
        simp
    · simp [h]

/-- Every failure outcome ends up in the sampled list. -/
theorem failure_mem_sampledAccum (rs : List RequestResult) (r : RequestResult)
    (hmem : r ∈ rs) (herr : r.error.isSome = true) :
    r ∈ sampledAccum rs := by
  obtain ⟨l, t, hlt⟩ := List.append_of_mem hmem
  subst hlt
  unfold sampledAccum
  rw [show l ++ r :: t = (l ++ [r]) ++ t by simp]
  rw [List.foldl_append]
  apply subset_foldl_sampleStep
  rw [List.foldl_append]
  have : sampleStep (List.foldl sampleStep [] l) r =
      List.foldl sampleStep [] l ++ [r] := by
    unfold sampleStep
    rw [if_pos herr]
  simp [this]

/-- C3, amended: sampled_requests contains every failure outcome, is
sorted by request number, contains only actual outcomes, and admits a
success exactly while the shared sampled list -- failures included --
holds fewer than maxSampled = 20 entries at the moment the success
completes.  (The claim's form, every failure plus up to the first 20
successes regardless of interleaving, is refuted by
c3_counterexample: failures occupy the same 20-slot budget.) -/
theorem c3_sampling_amended (rs : List RequestResult) :
    (∀ r ∈ rs, r.error.isSome = true → r ∈ finalSampled rs) ∧
    List.Sorted rnLE (finalSampled rs) ∧
    (∀ r ∈ finalSampled rs, r ∈ rs) ∧
    (∀ (l : List RequestResult) (r : RequestResult), r.error = none →
      sampledAccum (l ++ [r]) =
        if (sampledAccum l).length < maxSampled then sampledAccum l ++ [r]
        else sampledAccum l) := by
  refine ⟨?_, ?_, ?_, ?_⟩
  · intro r hmem herr
    have h1 : r ∈ sampledAccum rs := failure_mem_sampledAccum rs r hmem herr
    unfold finalSampled
    exact ((List.perm_insertionSort rnLE (sampledAccum rs)).mem_iff).mpr h1
  · exact List.sorted_insertionSort rnLE (sampledAccum rs)
  · intro r hmem
    have h1 : r ∈ sampledAccum rs :=
      ((List.perm_insertionSort rnLE (sampledAccum rs)).mem_iff).mp hmem
    have h2 : sampledAccum rs ⊆ [] ++ rs := foldl_sampleStep_subset rs []
    simpa using h2 h1
  · intro l r herr
    rw [sampledAccum_append]
    unfold sampleStep
    rw [herr]
    rfl

/-- Witness for C3's amended statement at a one-success run. -/
theorem c3_witness :
    (∀ r ∈ [sampleCexSuccess], r.error.isSome = true → r ∈ finalSampled [sampleCexSuccess]) ∧
    List.Sorted rnLE (finalSampled [sampleCexSuccess]) ∧
    (∀ r ∈ finalSampled [sampleCexSuccess], r ∈ [sampleCexSuccess]) ∧
    (∀ (l : List RequestResult) (r : RequestResult), r.error = none →
      sampledAccum (l ++ [r]) =
        if (sampledAccum l).length < maxSampled then sampledAccum l ++ [r]
        else sampledAccum l) :=
  c3_sampling_amended [sampleCexSuccess]

/-- Counterexample to C3 as stated: in a run whose first twenty completed
outcomes are failures, the run's first (and only) success is NOT in
sampled_requests, although the claim requires every failure together with
up to the first twenty successes to appear. -/
theorem c3_counterexample :
    sampleCexSuccess.error = none ∧
    sampleCexSuccess ∈ sampleCexRun ∧
    sampleCexSuccess ∉ finalSampled sampleCexRun := by
  decide

/-! ## C2: cancellation mid-run -/

/-- Every task contributes exactly one collected outcome. -/
theorem runOutcomes_length (fates : List TaskFate) :
    (runOutcomes fates).length = fates.length := by
  simp [runOutcomes]

/-- Reading a histogram after one bump. -/
theorem lookupCount_bumpCount {α : Type} [DecidableEq α] (m : List (α × ℕ)) (k0 k : α) :
    lookupCount (bumpCount m k0) k = lookupCount m k + if k0 = k then 1 else 0 := by
  induction m with
  | nil => simp [bumpCount, lookupCount]
  | cons p rest ih =>
    obtain ⟨a, c⟩ := p
    by_cases h1 : a = k0
    · subst h1
      simp only [bumpCount, if_pos rfl, lookupCount]
      split_ifs <;> simp_all [lookupCount]
    · simp only [bumpCount, if_neg h1, lookupCount]
      split_ifs <;> simp_all [lookupCount]

/-- Reading the errors_by_type histogram counts the failures that
normalize to the key. -/
theorem lookupCount_errorsFold (k : String) (l : List RequestResult) :
    ∀ m : List (String × ℕ),
      lookupCount (l.foldl (fun m r => bumpCount m (normalizeErrorType r.error)) m) k =
        lookupCount m k + l.countP (fun r => normalizeErrorType r.error = k) := by
  induction l with
  | nil => intro m; simp
  | cons r t ih =>
    intro m
    rw [List.foldl_cons, ih, List.countP_cons]
    rw [lookupCount_bumpCount]
    by_cases h : normalizeErrorType r.error = k <;> simp [h] <;> omega

/-- A cancelled task's recorded outcome. -/
theorem cancelled_mem_runOutcomes (fates : List TaskFate)
    (h : ∃ f ∈ fates, fateCancelled f = true) :
    ∃ r ∈ runOutcomes fates, r.error = some "cancelled" ∧ r.status_code = none := by
  obtain ⟨f, hmem, hc⟩ := h
  obtain ⟨j, hj, hget⟩ := List.mem_iff_getElem.mp hmem
  have hjr : j < (runOutcomes fates).length := by
    rw [runOutcomes_length]; exact hj
  refine ⟨(runOutcomes fates)[j], List.getElem_mem _, ?_⟩
  have : (runOutcomes fates)[j] = taskOutcome (j + 1) fates[j] := by
    unfold runOutcomes
    rw [List.getElem_zipWith]
    rw [List.getElem_range]
  rw [this, hget]
  cases f <;> simp_all [fateCancelled, taskOutcome]

/-- C2, amended: when cancellation is signalled and at least one task
observed it before dispatch, the final RunResult has status cancelled and
a positive errors_by_type count for the cancelled category, but its
requests_completed EQUALS spec.total_requests: the finalization assigns
the metric collector's count, and cancelled tasks also record an outcome
there.  (The claimed strict inequality is refuted by
c2_counterexample.) -/
theorem c2_cancellation_amended (fates : List TaskFate) (cancelSignalled : Bool)
    (duration : Option ℚ) (h1 : cancelSignalled = true)
    (h2 : ∃ f ∈ fates, fateCancelled f = true) :
    (finalizeRun fates cancelSignalled duration).status = RunStatus.cancelled ∧
    0 < lookupCount
        (finalizeRun fates cancelSignalled duration).metrics.errors_by_type "cancelled" ∧
    (finalizeRun fates cancelSignalled duration).requests_completed = fates.length := by
  subst h1
  refine ⟨rfl, ?_, runOutcomes_length fates⟩
  have hne : runOutcomes fates ≠ [] := by
    obtain ⟨f, hmem, -⟩ := h2
    have : fates ≠ [] := by rintro rfl; simp at hmem
    have : 0 < (runOutcomes fates).length := by
      rw [runOutcomes_length]
      exact List.length_pos.mpr this
    exact List.length_pos.mp this
  obtain ⟨r, hrmem, herr, hsc⟩ := cancelled_mem_runOutcomes fates h2
  have herrs : (finalizeRun fates true duration).metrics.errors_by_type =
      errorsByType ((runOutcomes fates).filter (fun r => isFailed r)) := by
    unfold finalizeRun
    exact computeMetrics_errors (runOutcomes fates) duration hne
  rw [herrs]
  unfold errorsByType
  rw [lookupCount_errorsFold]
  have hfil : r ∈ (runOutcomes fates).filter (fun r => isFailed r) := by
    rw [List.mem_filter]
    exact ⟨hrmem, by simp [isFailed, herr]⟩
  have hpos : 0 < ((runOutcomes fates).filter (fun r => isFailed r)).countP
      (fun r => normalizeErrorType r.error = "cancelled") := by
    rw [List.countP_pos]
    refine ⟨r, hfil, ?_⟩
    rw [herr]
    decide
  simpa [lookupCount] using hpos

/-- Witness for C2's amended statement: a two-task run, one finished,
one cancelled before dispatch. -/
theorem c2_witness :
    (finalizeRun cancelCexFates true none).status = RunStatus.cancelled ∧
    0 < lookupCount (finalizeRun cancelCexFates true none).metrics.errors_by_type "cancelled" ∧
    (finalizeRun cancelCexFates true none).requests_completed = cancelCexFates.length :=
  c2_cancellation_amended cancelCexFates true none rfl
    ⟨TaskFate.cancelledEarly, by decide, rfl⟩

/-- Counterexample to C2 as stated: cancellation signalled with one of two
requests undispatched yields status cancelled and a positive cancelled
error count, yet requests_completed equals total_requests = 2, not
strictly less. -/
theorem c2_counterexample :
    (finalizeRun cancelCexFates true none).status = RunStatus.cancelled ∧
    0 < lookupCount (finalizeRun cancelCexFates true none).metrics.errors_by_type "cancelled" ∧
    ¬ ((finalizeRun cancelCexFates true none).requests_completed < cancelCexFates.length) := by
  decide

/-! ## C8: token cache round trip -/

/-- After an update, looking up the written key finds the new value. -/
theorem assocFind_assocUpdate {α : Type} (l : List (String × α)) (k : String) (v : α) :
    assocFind (assocUpdate l k v) k = some v := by
  induction l with
  | nil => simp [assocUpdate, assocFind]
  | cons p rest ih =>
    obtain ⟨k0, v0⟩ := p
    by_cases h : k0 = k
    · simp [assocUpdate, assocFind, h]
    · simp [assocUpdate, assocFind, h, ih]

/-- Keys absent from the list are not found. -/
theorem assocFind_eq_none_of_not_mem {α : Type} (l : List (String × α)) (k : String)
    (h : k ∉ l.map Prod.fst) : assocFind l k = none := by
  induction l with
  | nil => rfl
  | cons p rest ih =>
    obtain ⟨k0, v0⟩ := p
    simp only [List.map_cons, List.mem_cons] at h
    push_neg at h
    have h1 : ¬ (k0 = k) := fun he => h.1 he.symm
    simp [assocFind, h1, ih h.2]

/-- Updating cannot introduce keys other than the written one. -/
theorem mem_keys_assocUpdate {α : Type} (l : List (String × α)) (k : String) (v : α)
    (x : String) (hx : x ∈ (assocUpdate l k v).map Prod.fst) :
    x ∈ l.map Prod.fst ∨ x = k := by
  induction l with
  | nil => simp [assocUpdate] at hx; simp [hx]
  | cons p rest ih =>
    obtain ⟨k0, v0⟩ := p
    by_cases h : k0 = k
    · subst h
      simp [assocUpdate] at hx
      rcases hx with h | h
      · simp [h]
      · simp [h]
    · simp only [assocUpdate, if_neg h, List.map_cons, List.mem_cons] at hx
      rcases hx with h2 | h2
      · simp [h2]
      · rcases ih h2 with h3 | h3
        · simp [h3]
        · simp [h3]

/-- Updating preserves uniqueness of the keys (the dict invariant). -/
theorem nodupKeys_assocUpdate {α : Type} (l : List (String × α)) (k : String) (v : α)
    (h : (l.map Prod.fst).Nodup) : ((assocUpdate l k v).map Prod.fst).Nodup := by
  induction l with
  | nil => simp [assocUpdate]
  | cons p rest ih =>
    obtain ⟨k0, v0⟩ := p
    simp only [List.map_cons, List.nodup_cons] at h
    by_cases hk : k0 = k
    · subst hk
      simp only [assocUpdate, eq_self_iff_true, if_true, List.map_cons, List.nodup_cons]
      exact h
    · simp only [assocUpdate, if_neg hk, List.map_cons, List.nodup_cons]
      refine ⟨?_, ih h.2⟩
      intro hmem
      rcases mem_keys_assocUpdate rest k v k0 hmem with h2 | h2
      · exact h.1 h2
      · exact hk h2

/-- With unique keys, deleting a key makes its lookup fail. -/
theorem assocFind_assocRemove_self {α : Type} (l : List (String × α)) (k : String)
    (h : (l.map Prod.fst).Nodup) : assocFind (assocRemove l k) k = none := by
  induction l with
  | nil => rfl
  | cons p rest ih =>
    obtain ⟨k0, v0⟩ := p
    simp only [List.map_cons, List.nodup_cons] at h
    by_cases hk : k0 = k
    · subst hk
      simp only [assocRemove, if_pos rfl]
      exact assocFind_eq_none_of_not_mem rest k0 h.1
    · simp only [assocRemove, if_neg hk, assocFind, if_neg hk]
      exact ih h.2

/-- C8, amended: after set(k, t, e) at time T on a cache with unique keys,
get(k) at time T + d returns t exactly when d < e - buffer with
buffer = min(30, floor(e/10)) -- Python integer division, not the claim's
exact e/10 -- and from that moment on get(k) returns none and evicts the
entry.  (The claim's real-division buffer is refuted by
c8_counterexample.) -/
theorem c8_token_cache_amended (cache : List (String × String × ℚ)) (k t : String)
    (e : ℕ) (T d : ℚ) (hnodup : (cache.map Prod.fst).Nodup) :
    ((tokenCacheGet (tokenCacheSet cache k t e T) k (T + d)).1 = some t ↔
      d < (e : ℚ) - ((min 30 (e / 10) : ℕ) : ℚ)) ∧
    (¬ (d < (e : ℚ) - ((min 30 (e / 10) : ℕ) : ℚ)) →
      (tokenCacheGet (tokenCacheSet cache k t e T) k (T + d)).1 = none ∧
      assocFind (tokenCacheGet (tokenCacheSet cache k t e T) k (T + d)).2 k = none) := by
  have hfind : assocFind (tokenCacheSet cache k t e T) k =
      some (t, T + (e : ℚ) - ((min 30 (e / 10) : ℕ) : ℚ)) := by
    unfold tokenCacheSet
    exact assocFind_assocUpdate cache k _
  have hcond : (T + d < T + (e : ℚ) - ((min 30 (e / 10) : ℕ) : ℚ)) ↔
      (d < (e : ℚ) - ((min 30 (e / 10) : ℕ) : ℚ)) := by
    constructor <;> intro h <;> linarith
  constructor
  · unfold tokenCacheGet
    rw [hfind]
    dsimp only
    by_cases h : T + d < T + (e : ℚ) - ((min 30 (e / 10) : ℕ) : ℚ)
    · rw [if_pos h]
      exact ⟨fun _ => hcond.mp h, fun _ => rfl⟩
    · rw [if_neg h]
      constructor
      · intro hx; simp at hx
      · intro hx
        exact absurd (hcond.mpr hx) h
  · intro hnot
    have h : ¬ (T + d < T + (e : ℚ) - ((min 30 (e / 10) : ℕ) : ℚ)) := fun hx => hnot (hcond.mp hx)
    unfold tokenCacheGet
    rw [hfind]
    dsimp only
    rw [if_neg h]
    refine ⟨rfl, ?_⟩
    apply assocFind_assocRemove_self
    unfold tokenCacheSet
    exact nodupKeys_assocUpdate cache k _ hnodup

/-- Witness for C8's amended statement: set with e = 100 at T = 0 gives
buffer 10, so a get at time 20 is a hit and the iff instance holds. -/
theorem c8_witness :
    ((tokenCacheGet (tokenCacheSet [] "a" "x" 100 0) "a" ((0 : ℚ) + 20)).1 = some "x" ↔
      (20 : ℚ) < (100 : ℚ) - ((min 30 (100 / 10) : ℕ) : ℚ)) ∧
    (¬ ((20 : ℚ) < (100 : ℚ) - ((min 30 (100 / 10) : ℕ) : ℚ)) →
      (tokenCacheGet (tokenCacheSet [] "a" "x" 100 0) "a" ((0 : ℚ) + 20)).1 = none ∧
      assocFind (tokenCacheGet (tokenCacheSet [] "a" "x" 100 0) "a" ((0 : ℚ) + 20)).2 "a" =
        none) :=
  c8_token_cache_amended [] "a" "x" 100 0 20 (by simp)

/-- Counterexample to C8 as stated: with e = 15 the claim's buffer is
min(30, 15/10) = 1.5 seconds, demanding a miss at offset 13.6 >= 13.5;
the code's integer-division buffer is 1 second, so the lookup at 13.6
still returns the token. -/
theorem c8_counterexample :
    (tokenCacheGet (tokenCacheSet [] "k" "tok" 15 0) "k" ((0 : ℚ) + 68 / 5)).1 = some "tok" ∧
    ¬ ((68 / 5 : ℚ) < (15 : ℚ) - min 30 ((15 : ℚ) / 10)) := by
  constructor
  · simp only [tokenCacheSet, tokenCacheGet, assocUpdate, assocFind]
    norm_num
  · rw [min_eq_right (by norm_num : ((15 : ℚ) / 10) ≤ 30)]
    norm_num

/-! ## C9: template placeholder resolution -/

/-- Scanning past a run of characters that all satisfy the predicate
stops at the first character that does not. -/
theorem takeWhile_append_head (p : Char → Bool) :
    ∀ (P R : List Char) (hd : Char), (∀ c ∈ P, p c = true) → p hd = false →
      (P ++ hd :: R).takeWhile p = P := by
  intro P
  induction P with
  | nil =>
    intro R hd _ hhd
    simp [List.takeWhile_cons, hhd]
  | cons c t ih =>
    intro R hd hall hhd
    have hc : p c = true := hall c (List.mem_cons_self _ _)
    simp [List.takeWhile_cons, hc, ih R hd (fun x hx => hall x (List.mem_cons_of_mem _ hx)) hhd]

/-- Companion of takeWhile_append_head for the dropped remainder. -/
theorem dropWhile_append_head (p : Char → Bool) :
    ∀ (P R : List Char) (hd : Char), (∀ c ∈ P, p c = true) → p hd = false →
      (P ++ hd :: R).dropWhile p = hd :: R := by
  intro P
  induction P with
  | nil =>
    intro R hd _ hhd
    simp [List.dropWhile_cons, hhd]
  | cons c t ih =>
    intro R hd hall hhd
    have hc : p c = true := hall c (List.mem_cons_self _ _)
    simp [List.dropWhile_cons, hc, ih R hd (fun x hx => hall x (List.mem_cons_of_mem _ hx)) hhd]

/-- Dropping the key and the closing braces lands after the match. -/
theorem drop_after_key (k Y : List Char) :
    (k ++ '}' :: '}' :: Y).drop (k.length + 2) = Y := by
  induction k with
  | nil => rfl
  | cons c t ih =>
    have hlen : (c :: t).length + 2 = (t.length + 2) + 1 := by simp [List.length_cons]
    rw [List.cons_append, hlen, List.drop_succ_cons, ih]

/-- A successful bare-key match captures exactly the word run. -/
theorem tryPlaceholder_word (k Y : List Char) (hk1 : k ≠ [])
    (hk2 : ∀ c ∈ k, isWordChar c = true) :
    tryPlaceholder (k ++ '}' :: '}' :: Y) = some k := by
  have h1 : (k ++ '}' :: '}' :: Y).takeWhile isWordChar = k :=
    takeWhile_append_head isWordChar k ('}' :: Y) '}' hk2 (by decide)
  have h2 : (k ++ '}' :: '}' :: Y).dropWhile isWordChar = '}' :: '}' :: Y :=
    dropWhile_append_head isWordChar k ('}' :: Y) '}' hk2 (by decide)
  have hke : k.isEmpty = false := by
    cases k
    · exact absurd rfl hk1
    · rfl
  simp only [tryPlaceholder, h1, h2, hke]
  rfl

/-- A successful prefixed-key match captures both word runs and the
colon. -/
theorem tryPlaceholder_prefixed (P N Y : List Char) (hP1 : P ≠ [])
    (hP2 : ∀ c ∈ P, isWordChar c = true) (hN1 : N ≠ [])
    (hN2 : ∀ c ∈ N, isWordChar c = true) :
    tryPlaceholder (P ++ ':' :: (N ++ '}' :: '}' :: Y)) = some (P ++ ':' :: N) := by
  have h1 : (P ++ ':' :: (N ++ '}' :: '}' :: Y)).takeWhile isWordChar = P :=
    takeWhile_append_head isWordChar P (N ++ '}' :: '}' :: Y) ':' hP2 (by decide)
  have h2 : (P ++ ':' :: (N ++ '}' :: '}' :: Y)).dropWhile isWordChar =
      ':' :: (N ++ '}' :: '}' :: Y) :=
    dropWhile_append_head isWordChar P (N ++ '}' :: '}' :: Y) ':' hP2 (by decide)
  have h3 : (N ++ '}' :: '}' :: Y).takeWhile isWordChar = N :=
    takeWhile_append_head isWordChar N ('}' :: Y) '}' hN2 (by decide)
  have h4 : (N ++ '}' :: '}' :: Y).dropWhile isWordChar = '}' :: '}' :: Y :=
    dropWhile_append_head isWordChar N ('}' :: Y) '}' hN2 (by decide)
  have hPe : P.isEmpty = false := by
    cases P
    · exact absurd rfl hP1
    · rfl
  have hNe : N.isEmpty = false := by
    cases N
    · exact absurd rfl hN1
    · rfl
  simp only [tryPlaceholder, h1, h2, h3, h4, hPe, hNe]
  rfl

/-- The scanner copies a non-brace character through unchanged. -/
theorem substituteAux_cons_ne (res : List Char → List Char) (c : Char) (l : List Char)
    (hc : c ≠ '{') : substituteAux res (c :: l) = c :: substituteAux res l := by
  rw [substituteAux.eq_def]
  split <;> simp_all

/-- The scanner copies brace-free text through unchanged. -/
theorem substituteAux_copy (res : List Char → List Char) :
    ∀ (X L : List Char), (∀ c ∈ X, c ≠ '{') →
      substituteAux res (X ++ L) = X ++ substituteAux res L := by
  intro X
  induction X with
  | nil => intro L _; rfl
  | cons c t ih =>
    intro L h
    rw [List.cons_append,
      substituteAux_cons_ne res c _ (h c (List.mem_cons_self _ _)),
      ih L (fun x hx => h x (List.mem_cons_of_mem _ hx))]
    rfl

/-- The scanner replaces a well-formed bare placeholder via res and
continues after it. -/
theorem substituteAux_placeholder (res : List Char → List Char) (k Y : List Char)
    (hk1 : k ≠ []) (hk2 : ∀ c ∈ k, isWordChar c = true) :
    substituteAux res ('{' :: '{' :: (k ++ '}' :: '}' :: Y)) =
      res k ++ substituteAux res Y := by
  rw [substituteAux.eq_def]
  simp only [tryPlaceholder_word k Y hk1 hk2]
  rw [drop_after_key]

/-- The scanner replaces a well-formed prefixed placeholder via res and
continues after it. -/
theorem substituteAux_placeholder_prefixed (res : List Char → List Char)
    (P N Y : List Char) (hP1 : P ≠ []) (hP2 : ∀ c ∈ P, isWordChar c = true)
    (hN1 : N ≠ []) (hN2 : ∀ c ∈ N, isWordChar c = true) :
    substituteAux res ('{' :: '{' :: (P ++ ':' :: (N ++ '}' :: '}' :: Y))) =
      res (P ++ ':' :: N) ++ substituteAux res Y := by
  rw [substituteAux.eq_def]
  simp only [tryPlaceholder_prefixed P N Y hP1 hP2 hN1 hN2]
  have hre : P ++ ':' :: (N ++ '}' :: '}' :: Y) = (P ++ ':' :: N) ++ '}' :: '}' :: Y := by
    simp
  rw [hre, drop_after_key]

/-- Word-character keys contain no colon. -/
theorem colon_not_mem (k : List Char) (hk : ∀ c ∈ k, isWordChar c = true) :
    ':' ∉ k := by
  intro hmem
  have := hk ':' hmem
  exact absurd this (by decide)

/-- A key built around a colon contains one. -/
theorem colon_mem_append (P R : List Char) : ':' ∈ P ++ ':' :: R :=
  List.mem_append.mpr (Or.inr (List.mem_cons_self _ _))

/-- replace_match on a bare key consults the call-site extras, then the
base variable map, then the built-ins, and otherwise emits the
placeholder unchanged. -/
theorem replaceMatch_bare (ctx : TemplateCtx) (rn : ℕ) (k : List Char)
    (hk2 : ∀ c ∈ k, isWordChar c = true) :
    replaceMatch ctx rn k =
      (match assocFind ctx.extraVars (String.mk k) with
       | some v => v.toList
       | none =>
         match assocFind ctx.baseVariables (String.mk k) with
         | some v => v.toList
         | none =>
           match getBuiltinValue ctx rn (String.mk k) with
           | some v => v.toList
           | none => wholeMatch k) := by
  unfold replaceMatch
  rw [if_neg (colon_not_mem k hk2)]
  cases h1 : assocFind ctx.extraVars (String.mk k) <;>
    cases h2 : assocFind ctx.baseVariables (String.mk k) <;>
      simp [mergedLookup, h1, h2]

/-- replace_match on an env-prefixed key reads the environment and emits
the placeholder unchanged when the variable is unset. -/
theorem replaceMatch_env (ctx : TemplateCtx) (rn : ℕ) (N : List Char)
    (hN2 : ∀ c ∈ N, isWordChar c = true) :
    replaceMatch ctx rn ("env".toList ++ ':' :: N) =
      (match getEnvValue ctx (String.mk N) with
       | some v => v.toList
       | none => wholeMatch ("env".toList ++ ':' :: N)) := by
  unfold replaceMatch
  rw [if_pos (colon_mem_append "env".toList N)]
  have hpre : ("env".toList ++ ':' :: N).takeWhile (fun c => c ≠ ':') = "env".toList :=
    takeWhile_append_head _ ("env".toList) N ':' (by decide) (by decide)
  have hdrop : ("env".toList ++ ':' :: N).dropWhile (fun c => c ≠ ':') = ':' :: N :=
    dropWhile_append_head _ ("env".toList) N ':' (by decide) (by decide)
  simp only [if_true, hpre, hdrop, List.tail_cons]
  rw [if_pos (by decide : String.mk "env".toList = "env")]

/-- replace_match on a target-prefixed key reads the TARGET_ environment
variable and emits the placeholder unchanged when it is unset. -/
theorem replaceMatch_target (ctx : TemplateCtx) (rn : ℕ) (N : List Char)
    (hN2 : ∀ c ∈ N, isWordChar c = true) :
    replaceMatch ctx rn ("target".toList ++ ':' :: N) =
      (match getTargetValue ctx (String.mk N) with
       | some v => v.toList
       | none => wholeMatch ("target".toList ++ ':' :: N)) := by
  unfold replaceMatch
  rw [if_pos (colon_mem_append "target".toList N)]
  have hpre : ("target".toList ++ ':' :: N).takeWhile (fun c => c ≠ ':') = "target".toList :=
    takeWhile_append_head _ ("target".toList) N ':' (by decide) (by decide)
  have hdrop : ("target".toList ++ ':' :: N).dropWhile (fun c => c ≠ ':') = ':' :: N :=
    dropWhile_append_head _ ("target".toList) N ':' (by decide) (by decide)
  simp only [if_true, hpre, hdrop, List.tail_cons]
  rw [if_neg (by decide : ¬ String.mk "target".toList = "env"),
    if_pos (by decide : String.mk "target".toList = "target")]

/-- C9: substitute resolves a bare placeholder by consulting, in order,
the call-site extra variables, the resolver's base variable map, then the
built-ins, and emits an unresolved placeholder -- including an env: or
target: placeholder whose environment variable is unset -- unchanged,
preserving the surrounding text.  X is the preceding text (brace-free so
it contains no placeholder opening), k the bare key, nm the name of the
prefixed placeholders, Y the arbitrary rest of the template. -/
theorem c9_template_resolution (ctx : TemplateCtx) (rn : ℕ) (X k nm Y : List Char)
    (hX : ∀ c ∈ X, c ≠ '{')
    (hk1 : k ≠ []) (hk2 : ∀ c ∈ k, isWordChar c = true)
    (hnm1 : nm ≠ []) (hnm2 : ∀ c ∈ nm, isWordChar c = true) :
    (substituteT ctx rn (X ++ '{' :: '{' :: (k ++ '}' :: '}' :: Y)) =
      X ++ (match assocFind ctx.extraVars (String.mk k) with
            | some v => v.toList
            | none =>
              match assocFind ctx.baseVariables (String.mk k) with
              | some v => v.toList
              | none =>
                match getBuiltinValue ctx rn (String.mk k) with
                | some v => v.toList
                | none => wholeMatch k) ++ substituteT ctx rn Y) ∧
    (getEnvValue ctx (String.mk nm) = none →
      substituteT ctx rn (X ++ '{' :: '{' :: ("env".toList ++ ':' :: (nm ++ '}' :: '}' :: Y))) =
        X ++ wholeMatch ("env".toList ++ ':' :: nm) ++ substituteT ctx rn Y) ∧
    (getTargetValue ctx (String.mk nm) = none →
      substituteT ctx rn
          (X ++ '{' :: '{' :: ("target".toList ++ ':' :: (nm ++ '}' :: '}' :: Y))) =
        X ++ wholeMatch ("target".toList ++ ':' :: nm) ++ substituteT ctx rn Y) := by
  refine ⟨?_, ?_, ?_⟩
  · unfold substituteT
    rw [substituteAux_copy _ X _ hX, substituteAux_placeholder _ k Y hk1 hk2,
      replaceMatch_bare ctx rn k hk2]
    simp [List.append_assoc]
  · intro henv
    unfold substituteT
    rw [substituteAux_copy _ X _ hX,
      substituteAux_placeholder_prefixed _ ("env".toList) nm Y (by decide) (by decide) hnm1 hnm2,
      replaceMatch_env ctx rn nm hnm2, henv]
    simp [List.append_assoc]
  · intro htgt
    unfold substituteT
    rw [substituteAux_copy _ X _ hX,
      substituteAux_placeholder_prefixed _ ("target".toList) nm Y (by decide) (by decide)
        hnm1 hnm2,
      replaceMatch_target ctx rn nm hnm2, htgt]
    simp [List.append_assoc]

/-- Witness for C9: in exampleCtx the key a is bound in both layers and
resolves to the call-site value; q is unset so env:q and target:q pass
through unchanged. -/
theorem c9_witness :
    (substituteT exampleCtx 7 ("x".toList ++ '{' :: '{' :: ("a".toList ++ '}' :: '}' :: [])) =
      "x".toList ++ (match assocFind exampleCtx.extraVars (String.mk "a".toList) with
            | some v => v.toList
            | none =>
              match assocFind exampleCtx.baseVariables (String.mk "a".toList) with
              | some v => v.toList
              | none =>
                match getBuiltinValue exampleCtx 7 (String.mk "a".toList) with
                | some v => v.toList
                | none => wholeMatch "a".toList) ++ substituteT exampleCtx 7 []) ∧
    (getEnvValue exampleCtx (String.mk "q".toList) = none →
      substituteT exampleCtx 7
          ("x".toList ++ '{' :: '{' :: ("env".toList ++ ':' :: ("q".toList ++ '}' :: '}' :: []))) =
        "x".toList ++ wholeMatch ("env".toList ++ ':' :: "q".toList) ++
          substituteT exampleCtx 7 []) ∧
    (getTargetValue exampleCtx (String.mk "q".toList) = none →
      substituteT exampleCtx 7
          ("x".toList ++ '{' :: '{' ::
            ("target".toList ++ ':' :: ("q".toList ++ '}' :: '}' :: []))) =
        "x".toList ++ wholeMatch ("target".toList ++ ':' :: "q".toList) ++
          substituteT exampleCtx 7 []) :=
  c9_template_resolution exampleCtx 7 "x".toList "a".toList "q".toList []
    (by decide) (by decide) (by decide) (by decide) (by decide)
